import Mathlib

/-!
Verification of the asl-recognizer training pipeline (src/train_model.py).

The numeric code operates on numpy float arrays; we embed it over the real
numbers.  A flattened landmark sample is a list of reals; `reshape(-1, 3)`
becomes `toLandmarks`, which groups the list into coordinate triples, and
`flatten` becomes `flattenLms`.  Fallible numpy operations (reshape with a
length not divisible by 3, indexing an empty landmark array) are modelled with
an error type.
-/

/-- One 3-D landmark: an x, y, z coordinate triple. -/
abbrev Lm : Type := ℝ × ℝ × ℝ

/-- Componentwise subtraction of two landmarks, as in `landmarks - wrist`. -/
def sub3 (p q : Lm) : Lm := (p.1 - q.1, p.2.1 - q.2.1, p.2.2 - q.2.2)

/-- Componentwise addition of two landmarks (used to state translation
invariance). -/
def add3 (p q : Lm) : Lm := (p.1 + q.1, p.2.1 + q.2.1, p.2.2 + q.2.2)

/-- Division of every coordinate of a landmark by a scalar, as in
`landmarks / max_dist`. -/
noncomputable def div3 (p : Lm) (c : ℝ) : Lm := (p.1 / c, p.2.1 / c, p.2.2 / c)

/-- Euclidean norm of a landmark, as in `np.linalg.norm(landmarks, axis=1)`. -/
noncomputable def norm3 (p : Lm) : ℝ :=
  Real.sqrt (p.1 ^ 2 + p.2.1 ^ 2 + p.2.2 ^ 2)

/-- `reshape(-1, 3)`: group a flat coordinate list into landmark triples.
Leftover elements (length not divisible by 3) are dropped here; the caller
checks divisibility first, mirroring numpy raising on a bad reshape. -/
def toLandmarks : List ℝ → List Lm
  | x :: y :: z :: rest => (x, y, z) :: toLandmarks rest
  | _ => []

/-- `.flatten()`: lay the landmark triples back out as a flat list. -/
def flattenLms : List Lm → List ℝ
  | [] => []
  | p :: rest => p.1 :: p.2.1 :: p.2.2 :: flattenLms rest

/-- Errors the numpy code can raise inside `normalize_landmarks`:
a reshape with a length not divisible by 3 (ValueError, the spec's
InvalidShapeError), and indexing `landmarks[0]` of an empty array
(IndexError). -/
inductive NormError : Type
  | invalidShape : NormError
  | indexError : NormError
deriving DecidableEq

/-- `np.max` over the per-landmark norms.  The translated landmark list always
contains the all-zero wrist, whose norm is 0, and every norm is nonnegative,
so folding `max` with initial value 0 agrees exactly with numpy's maximum of
the nonempty norm array. -/
noncomputable def maxDist (lms : List Lm) : ℝ :=
  (lms.map norm3).foldr max 0

/-- `landmarks - wrist`: subtract the anchor from every landmark. -/
def translated (lms : List Lm) (w : Lm) : List Lm :=
  lms.map (fun p => sub3 p w)

/-- `normalize_landmarks` from src/train_model.py: reshape to triples, subtract
the wrist (landmark 0), and if the maximum per-landmark Euclidean norm is
positive divide every coordinate by it; finally flatten back. -/
noncomputable def normalize_landmarks (flat : List ℝ) : Except NormError (List ℝ) :=
  if flat.length % 3 = 0 then
    match toLandmarks flat with
    | [] => .error .indexError
    | w :: rest =>
      let lms := translated (w :: rest) w
      let m := maxDist lms
      let out := if 0 < m then lms.map (fun p => div3 p m) else lms
      .ok (flattenLms out)
  else .error .invalidShape

/-- Maximum per-landmark Euclidean norm of a flat vector, used to state the
scale-invariance property of the output. -/
noncomputable def maxLandmarkNorm (flat : List ℝ) : ℝ :=
  maxDist (toLandmarks flat)

/-- Add the same 3-D offset to each landmark of a flat vector (used to state
translation invariance). -/
def addOffset (flat : List ℝ) (d : Lm) : List ℝ :=
  flattenLms ((toLandmarks flat).map (fun p => add3 p d))

-- Basic structural lemmas about the reshape/flatten pair.

theorem toLandmarks_length : ∀ flat : List ℝ,
    (toLandmarks flat).length = flat.length / 3
  | [] => by simp [toLandmarks]
  | [x] => by simp [toLandmarks]
  | [x, y] => by simp [toLandmarks]
  | x :: y :: z :: rest => by
      simp only [toLandmarks, List.length_cons, toLandmarks_length rest]
      omega

theorem flattenLms_length (lms : List Lm) :
    (flattenLms lms).length = 3 * lms.length := by
  induction lms with
  | nil => simp [flattenLms]
  | cons p rest ih => simp [flattenLms, ih]; ring

theorem toLandmarks_flattenLms (lms : List Lm) :
    toLandmarks (flattenLms lms) = lms := by
  induction lms with
  | nil => rfl
  | cons p rest ih => simp [flattenLms, toLandmarks, ih]

-- Pointwise coordinate lemmas.

theorem sub3_self (w : Lm) : sub3 w w = (0, 0, 0) := by
  simp [sub3]

theorem sub3_zero (p : Lm) : sub3 p (0, 0, 0) = p := by
  simp [sub3]

theorem sub3_eq_zero_iff (p q : Lm) : sub3 p q = (0, 0, 0) ↔ p = q := by
  obtain ⟨a, b, c⟩ := p
  obtain ⟨d, e, f⟩ := q
  simp [sub3, Prod.ext_iff, sub_eq_zero]

theorem sub3_add3 (p w d : Lm) : sub3 (add3 p d) (add3 w d) = sub3 p w := by
  obtain ⟨a, b, c⟩ := p
  obtain ⟨d1, d2, d3⟩ := d
  obtain ⟨e, f, g⟩ := w
  simp only [add3, sub3, Prod.mk.injEq]
  refine ⟨by ring, by ring, by ring⟩

theorem div3_zero (c : ℝ) : div3 (0, 0, 0) c = (0, 0, 0) := by
  simp [div3]

theorem div3_one (p : Lm) : div3 p 1 = p := by
  simp [div3]

theorem norm3_nonneg (p : Lm) : 0 ≤ norm3 p := Real.sqrt_nonneg _

theorem norm3_zero : norm3 (0, 0, 0) = 0 := by
  simp [norm3]

theorem norm3_eq_zero_iff (p : Lm) : norm3 p = 0 ↔ p = (0, 0, 0) := by
  obtain ⟨a, b, c⟩ := p
  have hs : (0 : ℝ) ≤ a ^ 2 + b ^ 2 + c ^ 2 := by positivity
  rw [norm3, Real.sqrt_eq_zero hs]
  constructor
  · intro h
    have ha : a = 0 := by nlinarith [sq_nonneg a, sq_nonneg b, sq_nonneg c]
    have hb : b = 0 := by nlinarith [sq_nonneg a, sq_nonneg b, sq_nonneg c]
    have hc : c = 0 := by nlinarith [sq_nonneg a, sq_nonneg b, sq_nonneg c]
    simp [ha, hb, hc]
  · intro h
    rw [Prod.ext_iff] at h
    obtain ⟨h1, h2⟩ := h
    rw [Prod.ext_iff] at h2
    simp only at h1 h2
    rw [h1, h2.1, h2.2]
    ring

theorem norm3_pos_of_ne (p : Lm) (h : p ≠ (0, 0, 0)) : 0 < norm3 p := by
  rcases lt_or_eq_of_le (norm3_nonneg p) with hlt | heq
  · exact hlt
  · exact absurd ((norm3_eq_zero_iff p).mp heq.symm) h

theorem norm3_div3 (p : Lm) (c : ℝ) (hc : 0 ≤ c) :
    norm3 (div3 p c) = norm3 p / c := by
  obtain ⟨a, b, d⟩ := p
  have hs : (0 : ℝ) ≤ a ^ 2 + b ^ 2 + d ^ 2 := by positivity
  have : (a / c) ^ 2 + (b / c) ^ 2 + (d / c) ^ 2 =
      (a ^ 2 + b ^ 2 + d ^ 2) / c ^ 2 := by
    field_simp
  rw [norm3, div3]
  simp only
  rw [this, Real.sqrt_div hs, Real.sqrt_sq hc, norm3]

-- Lemmas about the fold computing np.max over the norms.

theorem foldr_max_nonneg (l : List ℝ) : 0 ≤ l.foldr max 0 := by
  induction l with
  | nil => simp
  | cons a l ih => exact le_trans ih (le_max_right a _)

theorem le_foldr_max {l : List ℝ} {a : ℝ} (h : a ∈ l) : a ≤ l.foldr max 0 := by
  induction l with
  | nil => cases h
  | cons b l ih =>
      rcases List.mem_cons.mp h with rfl | h
      · exact le_max_left _ _
      · exact le_trans (ih h) (le_max_right _ _)

theorem foldr_max_div (l : List ℝ) (c : ℝ) (hc : 0 ≤ c) :
    (l.map (fun a => a / c)).foldr max 0 = l.foldr max 0 / c := by
  induction l with
  | nil => simp
  | cons a l ih =>
      simp only [List.map_cons, List.foldr_cons, ih]
      exact max_div_div_right hc a _

theorem maxDist_nonneg (lms : List Lm) : 0 ≤ maxDist lms :=
  foldr_max_nonneg _

theorem le_maxDist {lms : List Lm} {p : Lm} (h : p ∈ lms) :
    norm3 p ≤ maxDist lms :=
  le_foldr_max (List.mem_map_of_mem norm3 h)

theorem maxDist_pos_of_mem_ne {lms : List Lm} {p : Lm}
    (h : p ∈ lms) (hp : p ≠ (0, 0, 0)) : 0 < maxDist lms :=
  lt_of_lt_of_le (norm3_pos_of_ne p hp) (le_maxDist h)

theorem eq_zero_of_maxDist_eq_zero {lms : List Lm} (h : maxDist lms = 0)
    {p : Lm} (hp : p ∈ lms) : p = (0, 0, 0) := by
  have h1 : norm3 p ≤ 0 := h ▸ le_maxDist hp
  exact (norm3_eq_zero_iff p).mp (le_antisymm h1 (norm3_nonneg p))

theorem maxDist_replicate_zero (n : ℕ) :
    maxDist (List.replicate n ((0 : ℝ), (0 : ℝ), (0 : ℝ))) = 0 := by
  unfold maxDist
  induction n with
  | zero => simp
  | succ n ih =>
      rw [List.replicate_succ, List.map_cons, List.foldr_cons, ih, norm3_zero]
      simp

theorem maxDist_map_div3 (lms : List Lm) (c : ℝ) (hc : 0 ≤ c) :
    maxDist (lms.map (fun p => div3 p c)) = maxDist lms / c := by
  unfold maxDist
  rw [List.map_map]
  have : norm3 ∘ (fun p => div3 p c) = fun p => norm3 p / c := by
    funext p
    simp [Function.comp, norm3_div3 p c hc]
  rw [this, show (fun p : Lm => norm3 p / c) = (fun a => a / c) ∘ norm3 from rfl,
    ← List.map_map]
  exact foldr_max_div _ c hc

-- Characterization of normalize_landmarks on shape-valid inputs.

theorem normalize_landmarks_eq (flat : List ℝ) (w : Lm) (rest : List Lm)
    (hmod : flat.length % 3 = 0) (hlms : toLandmarks flat = w :: rest) :
    normalize_landmarks flat =
      .ok (flattenLms
        (if 0 < maxDist (translated (w :: rest) w) then
          (translated (w :: rest) w).map
            (fun p => div3 p (maxDist (translated (w :: rest) w)))
        else translated (w :: rest) w)) := by
  unfold normalize_landmarks
  rw [if_pos hmod, hlms]

theorem toLandmarks_cons_of_len63 (flat : List ℝ) (hlen : flat.length = 63) :
    ∃ w rest, toLandmarks flat = w :: rest ∧ rest.length = 20 := by
  have h := toLandmarks_length flat
  rw [hlen] at h
  match hl : toLandmarks flat with
  | [] => rw [hl] at h; simp at h
  | w :: rest =>
      refine ⟨w, rest, rfl, ?_⟩
      rw [hl] at h
      simp at h
      omega

theorem translated_cons (w : Lm) (rest : List Lm) :
    translated (w :: rest) w = (0, 0, 0) :: translated rest w := by
  simp [translated, sub3_self]

theorem translated_length (lms : List Lm) (w : Lm) :
    (translated lms w).length = lms.length := by
  simp [translated]

theorem translated_all_eq (lms : List Lm) (w : Lm) (h : ∀ p ∈ lms, p = w) :
    translated lms w = List.replicate lms.length ((0 : ℝ), (0 : ℝ), (0 : ℝ)) := by
  rw [← translated_length lms w]
  apply List.eq_replicate_length.mpr
  intro b hb
  rw [translated, List.mem_map] at hb
  obtain ⟨p, hp, rfl⟩ := hb
  rw [h p hp]
  exact sub3_self w

theorem flattenLms_replicate_zero (n : ℕ) :
    flattenLms (List.replicate n ((0 : ℝ), (0 : ℝ), (0 : ℝ))) =
      List.replicate (3 * n) (0 : ℝ) := by
  induction n with
  | zero => simp [flattenLms]
  | succ n ih =>
      rw [List.replicate_succ, show 3 * (n + 1) = 3 * n + 1 + 1 + 1 by ring,
        List.replicate_succ, List.replicate_succ, List.replicate_succ]
      simp only [flattenLms]
      rw [ih]

/-- C4: if the input length is not divisible by 3, the reshape fails: the
result is the InvalidShapeError outcome. -/
theorem normalize_landmarks_invalid_shape (flat : List ℝ)
    (h : flat.length % 3 ≠ 0) :
    normalize_landmarks flat = .error .invalidShape := by
  unfold normalize_landmarks
  rw [if_neg h]

/-- C4 witness: a length-1 input fails with the invalid-shape error. -/
theorem normalize_landmarks_invalid_shape_witness :
    normalize_landmarks [(5 : ℝ)] = .error .invalidShape :=
  normalize_landmarks_invalid_shape [(5 : ℝ)] (by decide)

theorem toLandmarks_replicate_zero (n : ℕ) :
    toLandmarks (List.replicate (3 * n) (0 : ℝ)) =
      List.replicate n ((0 : ℝ), (0 : ℝ), (0 : ℝ)) := by
  induction n with
  | zero => simp [toLandmarks]
  | succ n ih =>
      rw [show 3 * (n + 1) = 3 * n + 1 + 1 + 1 by ring, List.replicate_succ,
        List.replicate_succ, List.replicate_succ, toLandmarks, ih,
        ← List.replicate_succ]

/-- The all-zero 63-length sample normalizes to itself: shared evaluation
lemma used by several concrete witnesses. -/
theorem normalize_replicate_zero :
    normalize_landmarks (List.replicate 63 (0 : ℝ)) =
      .ok (List.replicate 63 (0 : ℝ)) := by
  have hlms : toLandmarks (List.replicate 63 (0 : ℝ)) =
      ((0 : ℝ), (0 : ℝ), (0 : ℝ)) ::
        List.replicate 20 ((0 : ℝ), (0 : ℝ), (0 : ℝ)) := by
    rw [show (63 : ℕ) = 3 * 21 by norm_num, toLandmarks_replicate_zero,
      List.replicate_succ]
  have htr : translated (((0 : ℝ), (0 : ℝ), (0 : ℝ)) ::
      List.replicate 20 ((0 : ℝ), (0 : ℝ), (0 : ℝ)))
      ((0 : ℝ), (0 : ℝ), (0 : ℝ)) =
      List.replicate 21 ((0 : ℝ), (0 : ℝ), (0 : ℝ)) := by
    have := translated_all_eq
      (((0 : ℝ), (0 : ℝ), (0 : ℝ)) ::
        List.replicate 20 ((0 : ℝ), (0 : ℝ), (0 : ℝ)))
      ((0 : ℝ), (0 : ℝ), (0 : ℝ))
      (by intro p hp
          rcases List.mem_cons.mp hp with rfl | hp
          · rfl
          · exact List.eq_of_mem_replicate hp)
    simpa using this
  rw [normalize_landmarks_eq _ _ _ (by simp) hlms, htr, maxDist_replicate_zero,
    if_neg (lt_irrefl 0), flattenLms_replicate_zero]

/-- C1: on every 63-length input that normalizes successfully, the first three
entries of the output (the anchor landmark) are exactly 0. -/
theorem normalize_landmarks_anchor_zero (flat out : List ℝ)
    (hlen : flat.length = 63) (hok : normalize_landmarks flat = .ok out) :
    out.take 3 = [0, 0, 0] := by
  obtain ⟨w, rest, hlms, -⟩ := toLandmarks_cons_of_len63 flat hlen
  have hmod : flat.length % 3 = 0 := by rw [hlen]
  rw [normalize_landmarks_eq flat w rest hmod hlms] at hok
  have hout : out = flattenLms
      (if 0 < maxDist (translated (w :: rest) w) then
        (translated (w :: rest) w).map
          (fun p => div3 p (maxDist (translated (w :: rest) w)))
      else translated (w :: rest) w) := (Except.ok.inj hok).symm
  by_cases hpos : 0 < maxDist (translated (w :: rest) w)
  · rw [if_pos hpos, translated_cons, List.map_cons, div3_zero] at hout
    rw [hout]
    simp [flattenLms]
  · rw [if_neg hpos, translated_cons] at hout
    rw [hout]
    simp [flattenLms]

/-- C1 witness: the all-zero 63-length input satisfies the hypotheses, and its
output starts with three zeros. -/
theorem normalize_landmarks_anchor_zero_witness :
    (List.replicate 63 (0 : ℝ)).length = 63 ∧
      (List.replicate 63 (0 : ℝ)).take 3 = [0, 0, 0] :=
  ⟨by simp, normalize_landmarks_anchor_zero _ _ (by simp)
    normalize_replicate_zero⟩

-- Further helper lemmas: translating by the zero landmark, dividing by one.

theorem translated_zero (lms : List Lm) :
    translated lms ((0 : ℝ), (0 : ℝ), (0 : ℝ)) = lms := by
  unfold translated
  rw [show (fun p : Lm => sub3 p ((0 : ℝ), (0 : ℝ), (0 : ℝ))) = id by
    funext p; exact sub3_zero p]
  exact List.map_id lms

theorem map_div3_one (lms : List Lm) :
    lms.map (fun p => div3 p 1) = lms := by
  rw [show (fun p : Lm => div3 p 1) = id by funext p; exact div3_one p]
  exact List.map_id lms

theorem replicate63_all_eq :
    ∀ p ∈ toLandmarks (List.replicate 63 (0 : ℝ)),
      p = (toLandmarks (List.replicate 63 (0 : ℝ))).headI := by
  have h : toLandmarks (List.replicate 63 (0 : ℝ)) =
      List.replicate 21 ((0 : ℝ), (0 : ℝ), (0 : ℝ)) := by
    rw [show (63 : ℕ) = 3 * 21 by norm_num, toLandmarks_replicate_zero]
  rw [h]
  intro p hp
  rw [List.eq_of_mem_replicate hp]
  rfl

/-- C3: when every landmark equals the anchor, normalization returns the
all-zero 63-vector and the division guard is false (max distance is 0), so
the division branch is never taken. -/
theorem normalize_landmarks_degenerate (flat : List ℝ)
    (hlen : flat.length = 63)
    (hall : ∀ p ∈ toLandmarks flat, p = (toLandmarks flat).headI) :
    normalize_landmarks flat = .ok (List.replicate 63 (0 : ℝ)) ∧
      maxDist (translated (toLandmarks flat) (toLandmarks flat).headI) = 0 := by
  obtain ⟨w, rest, hlms, hrlen⟩ := toLandmarks_cons_of_len63 flat hlen
  have hmod : flat.length % 3 = 0 := by rw [hlen]
  have hhead : (toLandmarks flat).headI = w := by rw [hlms]; rfl
  have hlen21 : (w :: rest).length = 21 := by simp [hrlen]
  have htr : translated (w :: rest) w =
      List.replicate 21 ((0 : ℝ), (0 : ℝ), (0 : ℝ)) := by
    have hall2 : ∀ p ∈ w :: rest, p = w := by
      intro p hp
      rw [← hlms] at hp
      rw [hall p hp, hhead]
    have := translated_all_eq (w :: rest) w hall2
    rw [hlen21] at this
    exact this
  constructor
  · rw [normalize_landmarks_eq flat w rest hmod hlms, htr,
      maxDist_replicate_zero, if_neg (lt_irrefl 0), flattenLms_replicate_zero]
  · rw [hlms]
    simp only [List.headI_cons]
    rw [htr, maxDist_replicate_zero]

/-- C3 witness: the all-zero 63-length input has all landmarks equal to its
anchor, is returned as the all-zero vector, and its max distance is 0. -/
theorem normalize_landmarks_degenerate_witness :
    normalize_landmarks (List.replicate 63 (0 : ℝ)) =
        .ok (List.replicate 63 (0 : ℝ)) ∧
      maxDist (translated (toLandmarks (List.replicate 63 (0 : ℝ)))
        (toLandmarks (List.replicate 63 (0 : ℝ))).headI) = 0 :=
  normalize_landmarks_degenerate _ (by simp) replicate63_all_eq

/-- C2: on every 63-length input with some landmark different from the anchor,
the maximum per-landmark Euclidean norm of the successful output is exactly 1. -/
theorem normalize_landmarks_max_norm_one (flat out : List ℝ)
    (hlen : flat.length = 63)
    (hne : ∃ p ∈ toLandmarks flat, p ≠ (toLandmarks flat).headI)
    (hok : normalize_landmarks flat = .ok out) :
    maxLandmarkNorm out = 1 := by
  obtain ⟨w, rest, hlms, -⟩ := toLandmarks_cons_of_len63 flat hlen
  have hmod : flat.length % 3 = 0 := by rw [hlen]
  have hhead : (toLandmarks flat).headI = w := by rw [hlms]; rfl
  obtain ⟨p, hp, hpne⟩ := hne
  rw [hlms] at hp
  rw [hhead] at hpne
  have hmem : sub3 p w ∈ translated (w :: rest) w :=
    List.mem_map_of_mem _ hp
  have hsub : sub3 p w ≠ ((0 : ℝ), (0 : ℝ), (0 : ℝ)) := by
    intro h
    exact hpne ((sub3_eq_zero_iff p w).mp h)
  have hpos : 0 < maxDist (translated (w :: rest) w) :=
    maxDist_pos_of_mem_ne hmem hsub
  rw [normalize_landmarks_eq flat w rest hmod hlms, if_pos hpos] at hok
  have hout := (Except.ok.inj hok).symm
  rw [hout, maxLandmarkNorm, toLandmarks_flattenLms,
    maxDist_map_div3 _ _ (le_of_lt hpos)]
  exact div_self (ne_of_gt hpos)

-- A concrete non-degenerate sample: wrist at the origin, the second landmark
-- at (1, 0, 0), all remaining landmarks at the origin.

/-- Landmarks 1..20 of the concrete non-degenerate sample. -/
def lmsTail : List Lm :=
  ((1 : ℝ), (0 : ℝ), (0 : ℝ)) :: List.replicate 19 ((0 : ℝ), (0 : ℝ), (0 : ℝ))

/-- A concrete valid 63-length input whose second landmark differs from its
anchor. -/
def flatOne : List ℝ :=
  flattenLms (((0 : ℝ), (0 : ℝ), (0 : ℝ)) :: lmsTail)

theorem flatOne_length : flatOne.length = 63 := by
  rw [flatOne, flattenLms_length]
  simp [lmsTail]

theorem flatOne_toLandmarks :
    toLandmarks flatOne = ((0 : ℝ), (0 : ℝ), (0 : ℝ)) :: lmsTail :=
  toLandmarks_flattenLms _

theorem norm3_e1 : norm3 ((1 : ℝ), (0 : ℝ), (0 : ℝ)) = 1 := by
  rw [norm3]
  norm_num

theorem maxDist_lmsOne :
    maxDist (((0 : ℝ), (0 : ℝ), (0 : ℝ)) :: lmsTail) = 1 := by
  have h19 := maxDist_replicate_zero 19
  unfold maxDist at h19 ⊢
  unfold lmsTail
  rw [List.map_cons, List.map_cons, List.foldr_cons, List.foldr_cons, h19,
    norm3_zero, norm3_e1]
  norm_num

theorem normalize_flatOne : normalize_landmarks flatOne = .ok flatOne := by
  have hmod : flatOne.length % 3 = 0 := by rw [flatOne_length]
  rw [normalize_landmarks_eq flatOne _ _ hmod flatOne_toLandmarks,
    translated_zero, maxDist_lmsOne, if_pos one_pos, map_div3_one]
  rfl

theorem flatOne_exists_ne :
    ∃ p ∈ toLandmarks flatOne, p ≠ (toLandmarks flatOne).headI := by
  refine ⟨((1 : ℝ), (0 : ℝ), (0 : ℝ)), ?_, ?_⟩
  · rw [flatOne_toLandmarks, lmsTail]
    exact List.mem_cons_of_mem _ (List.mem_cons_self _ _)
  · rw [flatOne_toLandmarks]
    simp only [List.headI_cons]
    intro h
    rw [Prod.ext_iff] at h
    exact one_ne_zero h.1

/-- C2 witness: the concrete sample flatOne satisfies the hypotheses and the
maximum per-landmark norm of its normalized output is 1. -/
theorem normalize_landmarks_max_norm_one_witness :
    flatOne.length = 63 ∧ maxLandmarkNorm flatOne = 1 :=
  ⟨flatOne_length, normalize_landmarks_max_norm_one flatOne flatOne
    flatOne_length flatOne_exists_ne normalize_flatOne⟩

/-- C9: adding the same 3-D offset to every landmark of a valid 63-length
input leaves the normalized output unchanged. -/
theorem normalize_landmarks_translation_invariant (flat : List ℝ) (d : Lm)
    (hlen : flat.length = 63) :
    normalize_landmarks (addOffset flat d) = normalize_landmarks flat := by
  obtain ⟨w, rest, hlms, hrlen⟩ := toLandmarks_cons_of_len63 flat hlen
  have hmod : flat.length % 3 = 0 := by rw [hlen]
  have hmod2 : (addOffset flat d).length % 3 = 0 := by
    rw [addOffset, flattenLms_length]
    omega
  have hlms2 : toLandmarks (addOffset flat d) =
      add3 w d :: rest.map (fun p => add3 p d) := by
    rw [addOffset, toLandmarks_flattenLms, hlms, List.map_cons]
  have hfun : (fun p : Lm => sub3 p (add3 w d)) ∘ (fun p : Lm => add3 p d) =
      fun p : Lm => sub3 p w := by
    funext p
    exact sub3_add3 p w d
  have htr : translated (add3 w d :: rest.map (fun p => add3 p d)) (add3 w d) =
      translated (w :: rest) w := by
    rw [show add3 w d :: rest.map (fun p => add3 p d) =
      (w :: rest).map (fun p => add3 p d) from rfl]
    unfold translated
    rw [List.map_map, hfun]
  rw [normalize_landmarks_eq _ _ _ hmod2 hlms2,
    normalize_landmarks_eq flat w rest hmod hlms, htr]

/-- C9 witness: offsetting the all-zero 63-length input by (1, 2, 3)
normalizes to the same result as the all-zero input itself. -/
theorem normalize_landmarks_translation_invariant_witness :
    normalize_landmarks
        (addOffset (List.replicate 63 (0 : ℝ)) ((1 : ℝ), (2 : ℝ), (3 : ℝ))) =
      normalize_landmarks (List.replicate 63 (0 : ℝ)) :=
  normalize_landmarks_translation_invariant _ _ (by simp)

/-- C10: normalization is idempotent on valid 63-length inputs: normalizing
a successful output returns that output unchanged. -/
theorem normalize_landmarks_idempotent (flat out : List ℝ)
    (hlen : flat.length = 63) (hok : normalize_landmarks flat = .ok out) :
    normalize_landmarks out = .ok out := by
  obtain ⟨w, rest, hlms, hrlen⟩ := toLandmarks_cons_of_len63 flat hlen
  have hmod : flat.length % 3 = 0 := by rw [hlen]
  rw [normalize_landmarks_eq flat w rest hmod hlms] at hok
  have htlen : (translated (w :: rest) w).length = 21 := by
    rw [translated_length]
    simp [hrlen]
  by_cases hpos : 0 < maxDist (translated (w :: rest) w)
  · rw [if_pos hpos] at hok
    have hout : out = flattenLms ((translated (w :: rest) w).map
        (fun p => div3 p (maxDist (translated (w :: rest) w)))) :=
      (Except.ok.inj hok).symm
    have hucons : (translated (w :: rest) w).map
        (fun p => div3 p (maxDist (translated (w :: rest) w))) =
        ((0 : ℝ), (0 : ℝ), (0 : ℝ)) :: (translated rest w).map
          (fun p => div3 p (maxDist (translated (w :: rest) w))) := by
      rw [translated_cons, List.map_cons, div3_zero]
    have hmod2 : out.length % 3 = 0 := by
      rw [hout, flattenLms_length]
      omega
    have hlms2 : toLandmarks out =
        ((0 : ℝ), (0 : ℝ), (0 : ℝ)) :: (translated rest w).map
          (fun p => div3 p (maxDist (translated (w :: rest) w))) := by
      rw [hout, toLandmarks_flattenLms, hucons]
    rw [normalize_landmarks_eq out _ _ hmod2 hlms2, translated_zero,
      ← hucons, maxDist_map_div3 _ _ (le_of_lt hpos),
      div_self (ne_of_gt hpos), if_pos one_pos, map_div3_one, ← hout]
  · rw [if_neg hpos] at hok
    have hout : out = flattenLms (translated (w :: rest) w) :=
      (Except.ok.inj hok).symm
    have hm0 : maxDist (translated (w :: rest) w) = 0 :=
      le_antisymm (not_lt.mp hpos) (maxDist_nonneg _)
    have hzero : translated (w :: rest) w =
        List.replicate 21 ((0 : ℝ), (0 : ℝ), (0 : ℝ)) := by
      rw [← htlen]
      apply List.eq_replicate_length.mpr
      intro p hp
      exact eq_zero_of_maxDist_eq_zero hm0 hp
    have hout2 : out = List.replicate 63 (0 : ℝ) := by
      rw [hout, hzero, flattenLms_replicate_zero]
    rw [hout2]
    exact normalize_replicate_zero

/-- C10 witness: the concrete sample flatOne normalizes to itself, and
re-normalizing its output leaves it unchanged. -/
theorem normalize_landmarks_idempotent_witness :
    normalize_landmarks flatOne = .ok flatOne :=
  normalize_landmarks_idempotent flatOne flatOne flatOne_length
    normalize_flatOne

/-!
Label vocabulary.  The script encodes labels with sklearn's LabelEncoder,
whose implementation is not part of this repository, so the vocabulary is
modelled from the spec.
-/

/-- Modelled from the spec: sklearn's LabelEncoder.fit (missing from src) —
collects the distinct label values, sorts them deterministically
(lexicographically), and assigns indices 0..C-1 by position. -/
def fitClasses (labels : List String) : List String :=
  labels.toFinset.sort (· ≤ ·)

/-- Modelled from the spec: LabelEncoder.transform (missing from src) maps a
fitted label to its class index, its position in the sorted class list. -/
def encodeLabel (classes : List String) (l : String) : ℕ :=
  classes.indexOf l

/-- Modelled from the spec: decoding indexes the exported class list
(classes_ of the encoder); out-of-range indices are not used by the
pipeline, so they default to the empty string here. -/
def decodeLabel (classes : List String) (i : ℕ) : String :=
  classes.getD i ""

/-- C5: the fitted vocabulary is strictly sorted (so indices 0..C-1 go to the
distinct labels in lexicographic order), contains exactly the fitted labels,
encoding inverts decoding on every valid index, and decoding inverts encoding
on every fitted label. -/
theorem label_vocabulary_roundtrip (labels : List String) :
    List.Sorted (· < ·) (fitClasses labels) ∧
      (∀ l, l ∈ fitClasses labels ↔ l ∈ labels) ∧
      (∀ i, i < (fitClasses labels).length →
        encodeLabel (fitClasses labels) (decodeLabel (fitClasses labels) i) = i) ∧
      (∀ l ∈ labels,
        decodeLabel (fitClasses labels) (encodeLabel (fitClasses labels) l) = l) := by
  have hnodup : (fitClasses labels).Nodup := Finset.sort_nodup _ _
  have hmem : ∀ l, l ∈ fitClasses labels ↔ l ∈ labels := by
    intro l
    rw [fitClasses, Finset.mem_sort, List.mem_toFinset]
  refine ⟨Finset.sort_sorted_lt _, hmem, ?_, ?_⟩
  · intro i hi
    rw [decodeLabel, List.getD_eq_getElem _ _ hi, encodeLabel,
      List.indexOf_getElem hnodup i hi]
  · intro l hl
    have hmem2 : l ∈ fitClasses labels := (hmem l).mpr hl
    have hlt : (fitClasses labels).indexOf l < (fitClasses labels).length :=
      List.indexOf_lt_length.mpr hmem2
    rw [decodeLabel, encodeLabel, List.getD_eq_getElem _ _ hlt,
      List.getElem_indexOf hlt]

/-- C5 witness: the vocabulary fitted on a small concrete label sequence. -/
theorem label_vocabulary_roundtrip_witness :
    List.Sorted (· < ·) (fitClasses ["b", "a", "b"]) ∧
      (∀ l, l ∈ fitClasses ["b", "a", "b"] ↔ l ∈ ["b", "a", "b"]) ∧
      (∀ i, i < (fitClasses ["b", "a", "b"]).length →
        encodeLabel (fitClasses ["b", "a", "b"])
          (decodeLabel (fitClasses ["b", "a", "b"]) i) = i) ∧
      (∀ l ∈ ["b", "a", "b"],
        decodeLabel (fitClasses ["b", "a", "b"])
          (encodeLabel (fitClasses ["b", "a", "b"]) l) = l) :=
  label_vocabulary_roundtrip ["b", "a", "b"]

/-!
Dataset split.  The script calls sklearn's train_test_split with a fixed
random_state and stratify; that library code is not part of this repository,
so the split strategy is modelled from the spec: a pure function of the rows,
the holdout fraction and the seed, stratified by class, failing when some
class has fewer than 2 rows.
-/

/-- The error raised when a class cannot be represented in both partitions. -/
inductive SplitError : Type
  | insufficientSamples : SplitError
deriving DecidableEq

/-- Modelled from the spec: the rows of the dataset carrying class label c
(the dataset is row-aligned features and labels, here a list of pairs). -/
def rowsOfClass {α : Type} (c : String) (rows : List (α × String)) :
    List (α × String) :=
  rows.filter (fun r => r.2 = c)

/-- Modelled from the spec: the distinct class labels observed in the
dataset, deterministically sorted. -/
def classesOf {α : Type} (rows : List (α × String)) : List String :=
  (rows.map Prod.snd).toFinset.sort (· ≤ ·)

/-- Modelled from the spec: how many rows of a class of size n go to the
evaluation partition: the holdout fraction of them within rounding, clamped
to keep at least one row of the class in each partition. -/
def evalCount (frac : ℚ) (n : ℕ) : ℕ :=
  max 1 (min (n - 1) (⌊frac * (n : ℚ)⌋).toNat)

/-- Modelled from the spec: the training rows of one class — the class rows
shuffled deterministically by the seed (a rotation), minus the held-out
prefix. -/
def trainOfClass {α : Type} (rows : List (α × String)) (frac : ℚ) (seed : ℕ)
    (c : String) : List (α × String) :=
  let g := (rowsOfClass c rows).rotate seed
  g.drop (evalCount frac g.length)

/-- Modelled from the spec: the evaluation rows of one class — the held-out
prefix of the seed-shuffled class rows. -/
def holdOfClass {α : Type} (rows : List (α × String)) (frac : ℚ) (seed : ℕ)
    (c : String) : List (α × String) :=
  let g := (rowsOfClass c rows).rotate seed
  g.take (evalCount frac g.length)

/-- Modelled from the spec: SplitStrategy.split (sklearn train_test_split with
stratify, missing from src) — partitions the rows class by class into
disjoint training and evaluation parts, deterministically in the seed;
fails with InsufficientSamplesError when some class has fewer than 2 rows. -/
def train_test_split {α : Type} (rows : List (α × String)) (frac : ℚ)
    (seed : ℕ) :
    Except SplitError (List (α × String) × List (α × String)) :=
  if ∀ c ∈ classesOf rows, 2 ≤ (rowsOfClass c rows).length then
    .ok (((classesOf rows).map (trainOfClass rows frac seed)).flatten,
      ((classesOf rows).map (holdOfClass rows frac seed)).flatten)
  else .error .insufficientSamples

/-- C6: the split is deterministic — it is a pure function of the dataset,
the holdout fraction and the seed, so two calls with identical arguments
return identical partitions. -/
theorem train_test_split_deterministic {α : Type} (rows : List (α × String))
    (frac : ℚ) (seed : ℕ) :
    train_test_split rows frac seed = train_test_split rows frac seed := rfl

/-- Membership in the sorted class list is membership among the row labels. -/
theorem mem_classesOf {α : Type} (c : String) (rows : List (α × String)) :
    c ∈ classesOf rows ↔ ∃ r ∈ rows, r.2 = c := by
  simp [classesOf, Finset.mem_sort, List.mem_toFinset, List.mem_map]

/-- C8: if some class has fewer than 2 rows, the split fails with the
insufficient-samples error. -/
theorem train_test_split_insufficient {α : Type} (rows : List (α × String))
    (frac : ℚ) (seed : ℕ)
    (h : ∃ c ∈ classesOf rows, (rowsOfClass c rows).length < 2) :
    train_test_split rows frac seed = .error .insufficientSamples := by
  unfold train_test_split
  rw [if_neg]
  push_neg
  obtain ⟨c, hc, hlt⟩ := h
  exact ⟨c, hc, by omega⟩

/-- C8 witness: a concrete dataset whose class A has a single row fails. -/
theorem train_test_split_insufficient_witness :
    train_test_split [((0 : ℕ), "A"), ((1 : ℕ), "B"), ((2 : ℕ), "B")]
        (1 / 5) 42 = .error .insufficientSamples :=
  train_test_split_insufficient _ _ _
    ⟨"A", (mem_classesOf _ _).mpr ⟨((0 : ℕ), "A"), by simp, rfl⟩, by decide⟩

-- Permutation lemmas for the stratified split (claim C7).

theorem rowsOfClass_label {α : Type} {c : String} {rows : List (α × String)}
    {r : α × String} (h : r ∈ rowsOfClass c rows) : r ∈ rows ∧ r.2 = c := by
  rw [rowsOfClass, List.mem_filter] at h
  exact ⟨h.1, by simpa using h.2⟩

theorem flatten_rowsOfClass_perm {α : Type} :
    ∀ (cs : List String) (rows : List (α × String)), cs.Nodup →
      (∀ r ∈ rows, r.2 ∈ cs) →
      ((cs.map (fun c => rowsOfClass c rows)).flatten).Perm rows
  | [], rows, _, hcov => by
      have : rows = [] := by
        cases rows with
        | nil => rfl
        | cons r t => exact absurd (hcov r (List.mem_cons_self r t)) (by simp)
      simp [this]
  | c :: cs, rows, hnd, hcov => by
      have hc_not : c ∉ cs := (List.nodup_cons.mp hnd).1
      have hnd2 : cs.Nodup := (List.nodup_cons.mp hnd).2
      set rows2 := rows.filter (fun r => !decide (r.2 = c)) with hrows2
      have hcov2 : ∀ r ∈ rows2, r.2 ∈ cs := by
        intro r hr
        rw [hrows2, List.mem_filter] at hr
        have hne : r.2 ≠ c := by simpa using hr.2
        rcases List.mem_cons.mp (hcov r hr.1) with h | h
        · exact absurd h hne
        · exact h
      have hkey : ∀ c2 ∈ cs, rowsOfClass c2 rows = rowsOfClass c2 rows2 := by
        intro c2 hc2
        have hne : c2 ≠ c := fun h => hc_not (h ▸ hc2)
        rw [hrows2, rowsOfClass, rowsOfClass, List.filter_filter]
        apply List.filter_congr
        intro r _
        by_cases hr : r.2 = c2
        · simp [hr, hne]
        · simp [hr]
      have ih := flatten_rowsOfClass_perm cs rows2 hnd2 hcov2
      rw [List.map_cons, List.flatten_cons,
        List.map_congr_left hkey]
      exact (ih.append_left (rowsOfClass c rows)).trans
        (List.filter_append_perm _ rows)

theorem flatten_map_append_perm {α β : Type} (f g : β → List α) :
    ∀ cs : List β,
      ((cs.map f).flatten ++ (cs.map g).flatten).Perm
        ((cs.map (fun c => f c ++ g c)).flatten)
  | [] => by simp
  | c :: cs => by
      have ih := flatten_map_append_perm f g cs
      simp only [List.map_cons, List.flatten_cons]
      have p1 : ((f c ++ (cs.map f).flatten) ++
          (g c ++ (cs.map g).flatten)).Perm
          ((f c ++ g c) ++ ((cs.map f).flatten ++ (cs.map g).flatten)) := by
        have e1 : (f c ++ (cs.map f).flatten) ++ (g c ++ (cs.map g).flatten) =
            f c ++ (((cs.map f).flatten ++ g c) ++ (cs.map g).flatten) := by
          simp [List.append_assoc]
        have e2 : (f c ++ g c) ++ ((cs.map f).flatten ++ (cs.map g).flatten) =
            f c ++ ((g c ++ (cs.map f).flatten) ++ (cs.map g).flatten) := by
          simp [List.append_assoc]
        rw [e1, e2]
        exact (List.perm_append_comm.append_right _).append_left _
      exact p1.trans (ih.append_left (f c ++ g c))

theorem trainOfClass_append_holdOfClass_perm {α : Type}
    (rows : List (α × String)) (frac : ℚ) (seed : ℕ) (c : String) :
    (trainOfClass rows frac seed c ++ holdOfClass rows frac seed c).Perm
      (rowsOfClass c rows) := by
  unfold trainOfClass holdOfClass
  have h := List.rotate_perm (rowsOfClass c rows) seed
  have e := List.take_append_drop
    (evalCount frac ((rowsOfClass c rows).rotate seed).length)
    ((rowsOfClass c rows).rotate seed)
  exact List.perm_append_comm.trans (by rw [e]; exact h)

theorem flatten_perm_of_forall_perm {α β : Type} (f g : β → List α) :
    ∀ cs : List β, (∀ c ∈ cs, (f c).Perm (g c)) →
      ((cs.map f).flatten).Perm ((cs.map g).flatten)
  | [], _ => by simp
  | c :: cs, h => by
      simp only [List.map_cons, List.flatten_cons]
      exact (h c (List.mem_cons_self c cs)).append
        (flatten_perm_of_forall_perm f g cs
          (fun c2 hc2 => h c2 (List.mem_cons_of_mem c hc2)))

theorem evalCount_fifth_twenty : evalCount (1 / 5) 20 = 4 := by
  unfold evalCount
  have h4 : ((1 : ℚ) / 5) * ((20 : ℕ) : ℚ) = 4 := by norm_num
  rw [h4]
  norm_num
  decide

theorem label_of_mem_rotate {α : Type} {c : String} {rows : List (α × String)}
    {seed : ℕ} {r : α × String}
    (h : r ∈ (rowsOfClass c rows).rotate seed) : r.2 = c :=
  (rowsOfClass_label (List.mem_rotate.mp h)).2

theorem class_in_both {α : Type} (rows : List (α × String)) (seed : ℕ)
    (c : String) (hc20 : (rowsOfClass c rows).length = 20) :
    (∃ r ∈ trainOfClass rows (1 / 5) seed c, r.2 = c) ∧
      (∃ r ∈ holdOfClass rows (1 / 5) seed c, r.2 = c) := by
  have hglen : ((rowsOfClass c rows).rotate seed).length = 20 := by
    rw [List.length_rotate, hc20]
  have hk : evalCount (1 / 5) ((rowsOfClass c rows).rotate seed).length = 4 := by
    rw [hglen]
    exact evalCount_fifth_twenty
  constructor
  · have hlen : (trainOfClass rows (1 / 5) seed c).length = 16 := by
      unfold trainOfClass
      rw [List.length_drop, hk, hglen]
    have hne : trainOfClass rows (1 / 5) seed c ≠ [] := by
      intro h
      rw [h] at hlen
      simp at hlen
    obtain ⟨r, hr⟩ := List.exists_mem_of_ne_nil _ hne
    have hrg : r ∈ (rowsOfClass c rows).rotate seed := by
      have hsub : trainOfClass rows (1 / 5) seed c ⊆
          (rowsOfClass c rows).rotate seed := by
        unfold trainOfClass
        exact List.drop_subset _ _
      exact hsub hr
    exact ⟨r, hr, label_of_mem_rotate hrg⟩
  · have hlen : (holdOfClass rows (1 / 5) seed c).length = 4 := by
      unfold holdOfClass
      rw [List.length_take, hk, hglen]
      omega
    have hne : holdOfClass rows (1 / 5) seed c ≠ [] := by
      intro h
      rw [h] at hlen
      simp at hlen
    obtain ⟨r, hr⟩ := List.exists_mem_of_ne_nil _ hne
    have hrg : r ∈ (rowsOfClass c rows).rotate seed := by
      have hsub : holdOfClass rows (1 / 5) seed c ⊆
          (rowsOfClass c rows).rotate seed := by
        unfold holdOfClass
        exact List.take_subset _ _
      exact hsub hr
    exact ⟨r, hr, label_of_mem_rotate hrg⟩

/-- C7: on a dataset with exactly two classes of 20 rows each, the split with
holdout fraction 1/5 succeeds; train and eval together are a permutation of
the dataset (every row appears exactly once), their lengths sum to the
dataset size, and each partition contains at least one row of each class. -/
theorem train_test_split_two_classes {α : Type} (rows : List (α × String))
    (a b : String) (seed : ℕ) (hab : a ≠ b)
    (hcov : ∀ r ∈ rows, r.2 = a ∨ r.2 = b)
    (ha : (rowsOfClass a rows).length = 20)
    (hb : (rowsOfClass b rows).length = 20) :
    ∃ t e, train_test_split rows (1 / 5) seed = .ok (t, e) ∧
      (t ++ e).Perm rows ∧ t.length + e.length = rows.length ∧
      (∃ r ∈ t, r.2 = a) ∧ (∃ r ∈ t, r.2 = b) ∧
      (∃ r ∈ e, r.2 = a) ∧ (∃ r ∈ e, r.2 = b) := by
  have hamem : a ∈ classesOf rows := by
    rw [mem_classesOf]
    have hne : rowsOfClass a rows ≠ [] := by
      intro h
      rw [h] at ha
      simp at ha
    obtain ⟨r, hr⟩ := List.exists_mem_of_ne_nil _ hne
    obtain ⟨h1, h2⟩ := rowsOfClass_label hr
    exact ⟨r, h1, h2⟩
  have hbmem : b ∈ classesOf rows := by
    rw [mem_classesOf]
    have hne : rowsOfClass b rows ≠ [] := by
      intro h
      rw [h] at hb
      simp at hb
    obtain ⟨r, hr⟩ := List.exists_mem_of_ne_nil _ hne
    obtain ⟨h1, h2⟩ := rowsOfClass_label hr
    exact ⟨r, h1, h2⟩
  have hcls : ∀ c ∈ classesOf rows, c = a ∨ c = b := by
    intro c hc
    rw [mem_classesOf] at hc
    obtain ⟨r, hr, hrc⟩ := hc
    rcases hcov r hr with h | h
    · exact Or.inl (by rw [← hrc, h])
    · exact Or.inr (by rw [← hrc, h])
  have h20 : ∀ c ∈ classesOf rows, (rowsOfClass c rows).length = 20 := by
    intro c hc
    rcases hcls c hc with rfl | rfl
    · exact ha
    · exact hb
  have hcond : ∀ c ∈ classesOf rows, 2 ≤ (rowsOfClass c rows).length := by
    intro c hc
    rw [h20 c hc]
    omega
  have hcov2 : ∀ r ∈ rows, r.2 ∈ classesOf rows := by
    intro r hr
    rw [mem_classesOf]
    exact ⟨r, hr, rfl⟩
  have hnodup : (classesOf rows).Nodup := Finset.sort_nodup _ _
  have hok : train_test_split rows (1 / 5) seed =
      .ok (((classesOf rows).map (trainOfClass rows (1 / 5) seed)).flatten,
        ((classesOf rows).map (holdOfClass rows (1 / 5) seed)).flatten) := by
    unfold train_test_split
    rw [if_pos hcond]
  have hperm : (((classesOf rows).map (trainOfClass rows (1 / 5) seed)).flatten ++
      ((classesOf rows).map (holdOfClass rows (1 / 5) seed)).flatten).Perm rows := by
    refine (flatten_map_append_perm _ _ (classesOf rows)).trans ?_
    refine (flatten_perm_of_forall_perm _ _ (classesOf rows) ?_).trans
      (flatten_rowsOfClass_perm (classesOf rows) rows hnodup hcov2)
    intro c _
    exact trainOfClass_append_holdOfClass_perm rows (1 / 5) seed c
  have hmemparts : ∀ c ∈ classesOf rows,
      (∃ r ∈ ((classesOf rows).map (trainOfClass rows (1 / 5) seed)).flatten,
        r.2 = c) ∧
      (∃ r ∈ ((classesOf rows).map (holdOfClass rows (1 / 5) seed)).flatten,
        r.2 = c) := by
    intro c hc
    obtain ⟨⟨r1, hr1, hl1⟩, r2, hr2, hl2⟩ := class_in_both rows seed c (h20 c hc)
    constructor
    · exact ⟨r1, List.mem_flatten.mpr
        ⟨trainOfClass rows (1 / 5) seed c, List.mem_map_of_mem _ hc, hr1⟩, hl1⟩
    · exact ⟨r2, List.mem_flatten.mpr
        ⟨holdOfClass rows (1 / 5) seed c, List.mem_map_of_mem _ hc, hr2⟩, hl2⟩
  refine ⟨_, _, hok, hperm, ?_, (hmemparts a hamem).1, (hmemparts b hbmem).1,
    (hmemparts a hamem).2, (hmemparts b hbmem).2⟩
  have hleq := hperm.length_eq
  rw [List.length_append] at hleq
  exact hleq

/-- C7 witness: a concrete dataset of 20 class-A rows and 20 class-B rows,
holdout fraction 1/5 and seed 42. -/
theorem train_test_split_two_classes_witness :
    ∃ t e, train_test_split
        (List.replicate 20 ((0 : ℕ), "A") ++ List.replicate 20 ((0 : ℕ), "B"))
        (1 / 5) 42 = .ok (t, e) ∧
      (t ++ e).Perm
        (List.replicate 20 ((0 : ℕ), "A") ++ List.replicate 20 ((0 : ℕ), "B")) ∧
      t.length + e.length =
        (List.replicate 20 ((0 : ℕ), "A") ++
          List.replicate 20 ((0 : ℕ), "B")).length ∧
      (∃ r ∈ t, r.2 = "A") ∧ (∃ r ∈ t, r.2 = "B") ∧
      (∃ r ∈ e, r.2 = "A") ∧ (∃ r ∈ e, r.2 = "B") :=
  train_test_split_two_classes _ "A" "B" 42 (by decide)
    (by
      intro r hr
      rcases List.mem_append.mp hr with h | h
      · exact Or.inl (by rw [List.eq_of_mem_replicate h])
      · exact Or.inr (by rw [List.eq_of_mem_replicate h]))
    (by decide) (by decide)
